import Mathlib

/-!
# Verification of the PyTaiko-Mini chart parser and draw-queue manager

Shallow embedding of `src/libs/tja2.py` (`TJAParser2.notes_to_position` and the
`Note`/`Drumroll`/`Balloon` data model) and of the draw-queue pop phase of
`Player2.draw_note_manager` in `src/scenes/game2.py`.

Modelling conventions:
* Python floats (`hit_ms`, `bpm`, scroll modifiers, time signature) are
  modelled as `ℚ`; every computation the claims exercise is exact decimal
  arithmetic, where `ℚ` and binary floating point agree on the test inputs.
* The chart text reaches `notes_to_position` already split into bars, each bar
  a list of parts (`data_to_notes` lives in `libs/tja.py`, which is not part of
  this repository snapshot; per the spec the chart-loading collaborator
  supplies "notation text already split into bars/cells").  A `Part` records
  which branch of the dispatch chain in `notes_to_position` (tja2.py lines
  168–204) the part's text selects: the substring tests `'#MEASURE' in part`,
  `'#SCROLL' in part`, `'#BPMCHANGE' in part`, then
  `len(part) > 0 and not part[0].isdigit()`, and otherwise the cell loop.
  The `#SCROLL` payload is kept at the character level because its
  complex-literal normalisation is the subject of a claim; `#MEASURE` and
  `#BPMCHANGE` carry their parsed numeric values.
* Python exceptions are modelled with `Except String`.
-/

namespace PyTaiko

/-- `NoteType` of tja2.py (an `IntEnum`); notes store the raw integer in their
`type` field, so the enum is embedded as its numeric values. -/
def NoteType.NONE : ℕ := 0
def NoteType.DON : ℕ := 1
def NoteType.KAT : ℕ := 2
def NoteType.DON_L : ℕ := 3
def NoteType.KAT_L : ℕ := 4
def NoteType.ROLL_HEAD : ℕ := 5
def NoteType.ROLL_HEAD_L : ℕ := 6
def NoteType.BALLOON_HEAD : ℕ := 7
def NoteType.TAIL : ℕ := 8
def NoteType.KUSUDAMA : ℕ := 9

/-- `ScrollType` of tja2.py. -/
inductive ScrollType
  | NMSCROLL
  | BMSCROLL
  | HBSCROLL
deriving DecidableEq, Repr

/-- Which Python class a note object belongs to: `Note`, or its subclasses
`Drumroll` / `Balloon` (tja2.py lines 25–135).  Subclassing is embedded as a
tag on a single record carrying the union of the fields. -/
inductive NoteClass
  | plain
  | drumroll
  | balloon
deriving DecidableEq, Repr

/-- The `Note` dataclass of tja2.py together with the extra fields of its
subclasses `Drumroll` (`color`) and `Balloon` (`count`, `popped`,
`is_kusudama`).  Python declares the base fields with `init=False` (unset
until assigned); the defaults below merely stand for "unset" and every field
a claim reads is explicitly assigned at its construction site.  The `moji`
field is omitted: it is assigned by `get_moji` (in the absent `libs/tja.py`)
and only names the lyric sprite. -/
structure Note where
  type : ℕ := 0
  hit_ms : ℚ := 0
  display : Bool := true
  index : ℕ := 0
  bpm : ℚ := 0
  scroll_x : ℚ := 1
  scroll_y : ℚ := 0
  cls : NoteClass := NoteClass.plain
  color : ℕ := 0
  count : ℕ := 0
  popped : Bool := false
  is_kusudama : Bool := false
deriving DecidableEq, Repr

/-- Modelled from the spec: `TimelineObject` lives in `libs/tja.py`, absent
from this snapshot.  Per spec §3 a timeline event has `hit_ms` and either an
absolute `bpm` or a relative `bpmchange` multiplier; `notes_to_position`
assigns exactly one of the two on each event it creates. -/
structure TimelineObject where
  hit_ms : ℚ := 0
  bpm : Option ℚ := none
  bpmchange : Option ℚ := none
deriving DecidableEq, Repr

/-- Modelled from the spec: `NoteList` lives in `libs/tja.py`, absent from
this snapshot.  Per spec §3 it is the four ordered sequences `play_notes`,
`draw_notes`, `bars`, `timeline`. -/
structure NoteList where
  play_notes : List Note := []
  draw_notes : List Note := []
  bars : List Note := []
  timeline : List TimelineObject := []
deriving DecidableEq, Repr

/-- Modelled from the spec: `get_ms_per_measure` lives in `libs/tja.py`,
absent from this snapshot; spec §4.1 gives
`ms_per_measure = 240000 * (a/b) / bpm`. -/
def get_ms_per_measure (bpm time_signature : ℚ) : ℚ :=
  240000 * time_signature / bpm

/-- One character of a note-cell part, as the cell loop of
`notes_to_position` (tja2.py lines 228–231) classifies it: a digit `'0'`–`'9'`
(`item.isdigit()`, acted on via `int(item)`), the character `'#'` (a non-digit
that additionally matters for `bar_length`), or any other non-digit. -/
inductive Cell
  | digit (d : ℕ)
  | hash
  | other
deriving DecidableEq, Repr

/-- One part of a bar, classified by the dispatch chain of
`notes_to_position` (tja2.py lines 168–204), in the source's test order:
`'#MEASURE' in part` / `'#SCROLL' in part` / `'#BPMCHANGE' in part` /
(`len(part) > 0 and not part[0].isdigit()`) / note cells.  `measure` and
`bpmchange` carry the numeric values the source obtains by `float(...)`
slicing; `scroll` carries the raw characters of `part[7:]` since their
normalisation is itself under scrutiny; `directive` records an unrecognised
directive's length and whether its text contains `'#'` (all that the source
reads of it, via `bar_length`); `cells` is a (possibly empty) run of note
cells. -/
inductive Part
  | measure (a b : ℚ)
  | scroll (value : List Char)
  | bpmchange (v : ℚ)
  | directive (len : ℕ) (hasHash : Bool)
  | cells (items : List Cell)
deriving DecidableEq, Repr

/-- Contribution of one part to `bar_length = sum(len(part) for part in bar
if '#' not in part)` (tja2.py line 164).  The three recognised directives
always contain `'#'` and contribute 0. -/
def partBarLen : Part → ℕ
  | Part.measure _ _ => 0
  | Part.scroll _ => 0
  | Part.bpmchange _ => 0
  | Part.directive len hasHash => if hasHash then 0 else len
  | Part.cells items =>
      if items.contains Cell.hash then 0 else items.length

/-- `bar_length` of tja2.py line 164. -/
def barLength (bar : List Part) : ℕ :=
  (bar.map partBarLen).sum

/-- The mutable local state of `notes_to_position` (tja2.py lines 140–161):
the millisecond cursor `self.current_ms`, the running chart parameters, the
FIFO balloon-count list, and the four output sequences being built. -/
structure ParserState where
  current_ms : ℚ
  bpm : ℚ
  time_signature : ℚ
  scroll_x_modifier : ℚ
  scroll_y_modifier : ℚ
  barline_display : Bool
  index : ℕ
  count : ℕ
  balloon : List ℕ
  bpmchange_last_bpm : ℚ
  prev_note : Option Note
  scroll_type : ScrollType
  notes : NoteList
deriving DecidableEq, Repr

/-- `bisect.insort(curr_timeline, x, key=lambda x: x.hit_ms)` (tja2.py lines
195 and 201): right-biased ordered insertion, placing `x` before the first
element with a strictly greater key. -/
def insortTimeline (l : List TimelineObject) (x : TimelineObject) :
    List TimelineObject :=
  match l with
  | [] => [x]
  | y :: ys =>
      if x.hit_ms < y.hit_ms then x :: y :: ys else y :: insortTimeline ys x

/-- Digits of a literal read as a natural number (most significant first). -/
def digitsToNat (cs : List Char) : ℕ :=
  cs.foldl (fun a c => a * 10 + (c.toNat - 48)) 0

/-- Python `float(s)` on an unsigned decimal literal `digits[.digits]`
(the subset of literals chart directives use; no exponent forms). -/
def pyFloatUnsigned (cs : List Char) : Option ℚ :=
  let ip := cs.takeWhile (fun c => c ≠ '.')
  let rest := cs.dropWhile (fun c => c ≠ '.')
  match rest with
  | [] =>
      if !ip.isEmpty && ip.all Char.isDigit then
        some (digitsToNat ip)
      else none
  | _ :: fp =>
      if (!ip.isEmpty || !fp.isEmpty) && ip.all Char.isDigit
          && fp.all Char.isDigit && fp.all (fun c => c ≠ '.') then
        some ((digitsToNat ip : ℚ) + (digitsToNat fp : ℚ) / (10 : ℚ) ^ fp.length)
      else none

/-- Python `float(s)` with an optional leading sign. -/
def pyFloat (cs : List Char) : Option ℚ :=
  match cs with
  | '-' :: rest => (pyFloatUnsigned rest).map Neg.neg
  | '+' :: rest => pyFloatUnsigned rest
  | _ => pyFloatUnsigned cs

/-- Index of the last `'+'`/`'-'` occurring past position 0, if any: the
split point between the real and imaginary summands of a complex literal. -/
def lastSignIdx (cs : List Char) : Option ℕ :=
  (List.range cs.length).foldl
    (fun acc i =>
      if 0 < i && (cs.getD i ' ' == '+' || cs.getD i ' ' == '-') then some i
      else acc)
    none

/-- A signed float where a bare sign (or nothing) denotes magnitude 1, as in
Python's `complex("1+j")`. -/
def pyFloatImagPart (cs : List Char) : Option ℚ :=
  match cs with
  | [] => some 1
  | ['+'] => some 1
  | ['-'] => some (-1)
  | _ => pyFloat cs

/-- Python `complex(s)` on the literal subset reachable from `#SCROLL`
normalisation: `A`, `Aj`, or `A±Bj` with `A`, `B` decimal floats.  Returns
`(real, imag)`. -/
def pyComplex (cs : List Char) : Option (ℚ × ℚ) :=
  match cs.getLast? with
  | some 'j' =>
      let body := cs.dropLast
      match lastSignIdx body with
      | some i =>
          match pyFloat (body.take i), pyFloatImagPart (body.drop i) with
          | some re, some im => some (re, im)
          | _, _ => none
      | none => (pyFloatImagPart body).map (fun v => ((0 : ℚ), v))
  | _ => (pyFloat cs).map (fun v => (v, (0 : ℚ)))

/-- The `#SCROLL` value normalisation of tja2.py lines 176–177:
`scroll_value.replace('.i', 'j').replace('i', 'j').replace(',', '')`.
`str.replace` scans left to right without overlap. -/
def replaceDotI : List Char → List Char
  | '.' :: 'i' :: rest => 'j' :: replaceDotI rest
  | c :: rest => c :: replaceDotI rest
  | [] => []

def replaceI (cs : List Char) : List Char :=
  cs.map (fun c => if c = 'i' then 'j' else c)

def removeComma (cs : List Char) : List Char :=
  cs.filter (fun c => c ≠ ',')

def normalizeScroll (cs : List Char) : List Char :=
  removeComma (replaceI (replaceDotI cs))

/-- Appending a freshly built note (tja2.py lines 258–263): advance the
cursor by `increment`, append to `play_notes` and `draw_notes`, bump `index`,
remember `prev_note`.  (`get_moji` is called here in the source; it only
assigns the omitted lyric-token field.) -/
def emitNote (st : ParserState) (note : Note) (inc : ℚ) : ParserState :=
  { st with
    current_ms := st.current_ms + inc,
    index := st.index + 1,
    prev_note := some note,
    notes := { st.notes with
      play_notes := st.notes.play_notes ++ [note],
      draw_notes := st.notes.draw_notes ++ [note] } }

/-- The fresh `Note` a digit cell builds (tja2.py lines 233–240): typed with
the digit, at the cursor, stamped with the running BPM and scroll
modifiers. -/
def mkCellNote (st : ParserState) (d : ℕ) : Note :=
  { type := d, hit_ms := st.current_ms, display := true,
    index := st.index, bpm := st.bpm,
    scroll_x := st.scroll_x_modifier, scroll_y := st.scroll_y_modifier }

/-- One iteration of the cell loop of `notes_to_position` (tja2.py lines
228–263).  `'0'` and non-digits only advance the cursor.  A digit builds a
`Note` at the cursor, specialised to `Drumroll` for `'5'`/`'6'` and to
`Balloon` for `'7'`/`'9'` (balloon counts are popped FIFO from the declared
list; `note.count = 1 if not balloon else balloon.pop(0)` defaults to 1 when
the list is empty — the `balloon is None` guard on line 247 cannot fire here
because line 142 took a `.copy()` of a list).  `'8'` raises
`ValueError("No previous note found")` when `prev_note` is `None`. -/
def processCell (inc : ℚ) (st : ParserState) :
    Cell → Except String ParserState
  | Cell.hash => Except.ok { st with current_ms := st.current_ms + inc }
  | Cell.other => Except.ok { st with current_ms := st.current_ms + inc }
  | Cell.digit d =>
    if d = 0 then
      Except.ok { st with current_ms := st.current_ms + inc }
    else
      let base : Note := mkCellNote st d
      if d = 5 ∨ d = 6 then
        Except.ok (emitNote st { base with cls := NoteClass.drumroll, color := 255 } inc)
      else if d = 7 ∨ d = 9 then
        let cnt : ℕ := match st.balloon with | [] => 1 | c :: _ => c
        let rest : List ℕ := match st.balloon with | [] => [] | _ :: r => r
        let note : Note :=
          { base with cls := NoteClass.balloon, count := cnt, is_kusudama := d == 9 }
        Except.ok (emitNote { st with count := st.count + 1, balloon := rest } note inc)
      else if d = 8 then
        match st.prev_note with
        | none => Except.error "No previous note found"
        | some _ => Except.ok (emitNote st base inc)
      else
        Except.ok (emitNote st base inc)

/-- The cell loop (tja2.py line 228), cells processed left to right. -/
def runCells (inc : ℚ) : List Cell → ParserState → Except String ParserState
  | [], st => Except.ok st
  | c :: rest, st =>
      match processCell inc st c with
      | Except.ok st' => runCells inc rest st'
      | Except.error e => Except.error e

/-- The bar-line entity a cells part emits (tja2.py lines 207–217): a `Note`
of type 0 at the cursor, displayed unless a bar line was already added for
this bar (`barline_added`, the `Bool` argument).  The source never assigns
`index` or `moji` on bar lines; the `index := 0` below stands for the unset
field (it is never read). -/
def mkBarLine (st : ParserState) (added : Bool) : Note :=
  { type := 0, hit_ms := st.current_ms,
    display := if added then false else st.barline_display,
    index := 0, bpm := st.bpm,
    scroll_x := st.scroll_x_modifier, scroll_y := st.scroll_y_modifier }

/-- `curr_bar_list.append(bar_line)` (tja2.py line 219). -/
def appendBarLine (st : ParserState) (added : Bool) : ParserState :=
  { st with notes := { st.notes with bars := st.notes.bars ++ [mkBarLine st added] } }

/-- Processing one part of a bar (tja2.py lines 167–263).  The `Bool`
threaded alongside the state is `barline_added`.  A cells part first emits a
bar line at the cursor, then an empty part advances a full measure and a
non-empty part advances `ms_per_measure / bar_length` per cell. -/
def processPart (bl : ℕ) (st : ParserState) (added : Bool) :
    Part → Except String (ParserState × Bool)
  | Part.measure a b =>
      Except.ok ({ st with time_signature := a / b }, added)
  | Part.scroll value =>
      if st.scroll_type = ScrollType.BMSCROLL then
        Except.ok (st, added)
      else if value.contains 'i' then
        match pyComplex (normalizeScroll value) with
        | some (re, im) =>
            Except.ok ({ st with scroll_x_modifier := re,
                                 scroll_y_modifier := im }, added)
        | none => Except.error "ValueError: invalid complex literal"
      else
        match pyFloat value with
        | some v =>
            Except.ok ({ st with scroll_x_modifier := v,
                                 scroll_y_modifier := 0 }, added)
        | none => Except.error "ValueError: invalid float literal"
  | Part.bpmchange v =>
      if st.scroll_type = ScrollType.BMSCROLL ∨ st.scroll_type = ScrollType.HBSCROLL then
        let ev : TimelineObject :=
          { hit_ms := st.current_ms, bpmchange := some (v / st.bpmchange_last_bpm) }
        let nl : NoteList :=
          { st.notes with timeline := insortTimeline st.notes.timeline ev }
        Except.ok ({ st with bpmchange_last_bpm := v, notes := nl }, added)
      else
        let ev : TimelineObject :=
          { hit_ms := st.current_ms, bpm := some v }
        let nl : NoteList :=
          { st.notes with timeline := insortTimeline st.notes.timeline ev }
        Except.ok ({ st with bpm := v, notes := nl }, added)
  | Part.directive _ _ => Except.ok (st, added)
  | Part.cells items =>
      let mpm := get_ms_per_measure st.bpm st.time_signature
      let st1 := appendBarLine st added
      match items with
      | [] =>
          Except.ok ({ st1 with current_ms := st1.current_ms + mpm }, true)
      | _ =>
          match runCells (mpm / (bl : ℚ)) items st1 with
          | Except.ok st' => Except.ok (st', true)
          | Except.error e => Except.error e

/-- The parts of one bar, processed left to right with `barline_added`
initially false and `bar_length` fixed for the whole bar. -/
def runParts (bl : ℕ) : List Part → ParserState → Bool →
    Except String (ParserState × Bool)
  | [], st, added => Except.ok (st, added)
  | p :: rest, st, added =>
      match processPart bl st added p with
      | Except.ok (st', added') => runParts bl rest st' added'
      | Except.error e => Except.error e

/-- One bar of the outer loop (tja2.py lines 163–165). -/
def processBar (st : ParserState) (bar : List Part) :
    Except String ParserState :=
  match runParts (barLength bar) bar st false with
  | Except.ok (st', _) => Except.ok st'
  | Except.error e => Except.error e

/-- The outer bar loop of `notes_to_position`. -/
def runChart : List (List Part) → ParserState → Except String ParserState
  | [], st => Except.ok st
  | bar :: rest, st =>
      match processBar st bar with
      | Except.ok st' => runChart rest st'
      | Except.error e => Except.error e

/-- The initial state of `notes_to_position` (tja2.py lines 140–161):
cursor at `self.current_ms`, `time_signature = 4/4`, scroll modifiers
`(1, 0)`, `barline_display = True`, the balloon list copied from the course
metadata, `bpmchange_last_bpm = bpm`, `prev_note = None`,
`scroll_type = ScrollType.NMSCROLL`, and the timeline seeded with an
absolute-BPM event at the cursor. -/
def initState (start_ms bpm0 : ℚ) (balloon0 : List ℕ) : ParserState :=
  { current_ms := start_ms,
    bpm := bpm0,
    time_signature := 4 / 4,
    scroll_x_modifier := 1,
    scroll_y_modifier := 0,
    barline_display := true,
    index := 0,
    count := 0,
    balloon := balloon0,
    bpmchange_last_bpm := bpm0,
    prev_note := none,
    scroll_type := ScrollType.NMSCROLL,
    notes := { timeline := [{ hit_ms := start_ms, bpm := some bpm0 }] } }

/-- `TJAParser2.notes_to_position` (tja2.py lines 138–265), as a function of
the pre-split chart, the starting cursor (`self.current_ms`), the initial BPM
(`self.metadata.bpm`) and the declared per-difficulty balloon list.  Returns
the built `NoteList` (the source returns it together with branch lists that
merely alias it). -/
def notes_to_position (chart : List (List Part)) (start_ms bpm0 : ℚ)
    (balloon0 : List ℕ) : Except String NoteList :=
  match runChart chart (initState start_ms bpm0 balloon0) with
  | Except.ok st => Except.ok st.notes
  | Except.error e => Except.error e

/-! ## The draw-queue pop phase of `Player2.draw_note_manager` (game2.py) -/

/-- Python `==` on note objects: `Note.__eq__`, `Drumroll.__eq__` and
`Balloon.__eq__` (tja2.py lines 48–49, 90–91, 116–117) all compare
`self.hit_ms == other.hit_ms` and nothing else. -/
def noteEq (a b : Note) : Bool := a.hit_ms == b.hit_ms

/-- `list.remove(x)` as used on `deque`s of notes (game2.py line 120):
removes the first element `==`-equal to `x`, i.e. the first element with the
same `hit_ms`.  (Python raises `ValueError` when no element matches; at the
call site the removed note was just found in the list, so a match exists.) -/
def removeNote : List Note → Note → List Note
  | [], _ => []
  | y :: ys, x => if noteEq y x then ys else y :: removeNote ys x

/-- `bisect.insort_left(self.current_notes_draw, note, key=lambda x: x.index)`
(game2.py lines 116, 119, 124): left-biased ordered insertion by `index`,
placing `x` before the first element whose index is not smaller. -/
def insortLeftIndex (l : List Note) (x : Note) : List Note :=
  match l with
  | [] => [x]
  | y :: ys =>
      if x.index ≤ y.index then x :: y :: ys else y :: insortLeftIndex ys x

/-- The queue state `draw_note_manager` manipulates: the FIFO
`self.draw_note_list` and the active set `self.current_notes_draw`. -/
structure DrawState where
  draw_note_list : List Note
  current_notes_draw : List Note
deriving DecidableEq, Repr

/-- The pop phase of `Player2.draw_note_manager` (game2.py lines 113–124):
if the queue head is within the 10000 ms lookahead it is popped and inserted
into the active set by ascending `index`; when its type satisfies
`5 <= type <= 7` (`ROLL_HEAD`, `ROLL_HEAD_L`, `BALLOON_HEAD` — but not
`KUSUDAMA = 9`), the first `TAIL` remaining in the queue is also inserted by
ascending `index` and removed (by `==`, i.e. first equal `hit_ms`) from the
queue; `next(...)` with no default raises `StopIteration` when no `TAIL`
exists, re-raised by the `except` block.  The subsequent retirement phase
(game2.py lines 126–136) depends on the rendering collaborator's screen
geometry and is outside this embedding. -/
def draw_note_manager_pop (current_ms : ℚ) (st : DrawState) :
    Except String DrawState :=
  match st.draw_note_list with
  | [] => Except.ok st
  | head :: rest =>
      if head.hit_ms - 10000 ≤ current_ms then
        if 5 ≤ head.type ∧ head.type ≤ 7 then
          match rest.find? (fun n => n.type == NoteType.TAIL) with
          | some tail =>
              Except.ok
                { draw_note_list := removeNote rest tail,
                  current_notes_draw :=
                    insortLeftIndex (insortLeftIndex st.current_notes_draw head) tail }
          | none => Except.error "StopIteration"
        else
          Except.ok
            { draw_note_list := rest,
              current_notes_draw := insortLeftIndex st.current_notes_draw head }
      else Except.ok st

/-! ## Decidability helper -/

instance {ε α : Type _} [DecidableEq ε] [DecidableEq α] :
    DecidableEq (Except ε α) := fun a b =>
  match a, b with
  | Except.ok x, Except.ok y =>
      if h : x = y then isTrue (by rw [h])
      else isFalse (by intro hc; cases hc; exact h rfl)
  | Except.error x, Except.error y =>
      if h : x = y then isTrue (by rw [h])
      else isFalse (by intro hc; cases hc; exact h rfl)
  | Except.ok _, Except.error _ => isFalse (by intro hc; cases hc)
  | Except.error _, Except.ok _ => isFalse (by intro hc; cases hc)

/-! ## Ordering predicates and chart validity -/

/-- A note sequence is non-decreasing in `hit_ms`. -/
def SortedN (l : List Note) : Prop :=
  l.Pairwise (fun a b => a.hit_ms ≤ b.hit_ms)

/-- A timeline is non-decreasing in `hit_ms`. -/
def SortedT (l : List TimelineObject) : Prop :=
  l.Pairwise (fun a b => a.hit_ms ≤ b.hit_ms)

/-- A note sequence is sorted by ascending `index`. -/
def SortedIdx (l : List Note) : Prop :=
  l.Pairwise (fun a b => a.index ≤ b.index)

/-- Every note of `l` sits at or before time `c`. -/
def BoundedN (l : List Note) (c : ℚ) : Prop :=
  ∀ n ∈ l, n.hit_ms ≤ c

/-- A part is valid when the numeric values it carries keep the running BPM
and time signature positive (spec: "positive BPM and positive time signature
throughout"). -/
def ValidPart : Part → Prop
  | Part.measure a b => 0 < a / b
  | Part.bpmchange v => 0 < v
  | Part.scroll _ => True
  | Part.directive _ _ => True
  | Part.cells _ => True

instance instDecidableValidPart : ∀ p, Decidable (ValidPart p)
  | Part.measure a b => inferInstanceAs (Decidable (0 < a / b))
  | Part.bpmchange v => inferInstanceAs (Decidable (0 < v))
  | Part.scroll _ => inferInstanceAs (Decidable True)
  | Part.directive _ _ => inferInstanceAs (Decidable True)
  | Part.cells _ => inferInstanceAs (Decidable True)

/-- Every part of every bar of the chart is valid. -/
def ValidChart (chart : List (List Part)) : Prop :=
  ∀ bar ∈ chart, ∀ p ∈ bar, ValidPart p

instance instDecidableValidChart (chart : List (List Part)) :
    Decidable (ValidChart chart) :=
  inferInstanceAs (Decidable (∀ bar ∈ chart, ∀ p ∈ bar, ValidPart p))

/-- All timeline events are absolute-BPM events (no relative multiplier). -/
def AbsoluteTimeline (st : ParserState) : Prop :=
  ∀ ev ∈ st.notes.timeline, ev.bpmchange = none

/-! ### Concrete values used by the witness theorems -/

/-- The initial parser state for a chart starting at cursor 0 with BPM 120
and no declared balloon counts. -/
def stInit : ParserState := initState 0 120 []

/-- `stInit` under the `BMSCROLL` multiplier family. -/
def stBM : ParserState := { stInit with scroll_type := ScrollType.BMSCROLL }

/-- A `TAIL` note as `notes_to_position` would emit it at 1000 ms. -/
def tailW : Note :=
  { type := 8, hit_ms := 1000, display := true, index := 1, bpm := 120,
    scroll_x := 1, scroll_y := 0 }

/-- A `ROLL_HEAD` drumroll note at 0 ms. -/
def rollHeadW : Note :=
  { type := 5, hit_ms := 0, display := true, index := 0, bpm := 120,
    scroll_x := 1, scroll_y := 0, cls := NoteClass.drumroll, color := 255 }

/-- A `KUSUDAMA` balloon note at 0 ms. -/
def kusuW : Note :=
  { type := 9, hit_ms := 0, display := true, index := 0, bpm := 120,
    scroll_x := 1, scroll_y := 0, cls := NoteClass.balloon, count := 5,
    is_kusudama := true }

/-- `stInit` with a previous note on record. -/
def stPrevW : ParserState := { stInit with prev_note := some tailW }

/-- The state a single part produces (the start state on error, which the
accompanying equations rule out). -/
def partResult (bl : ℕ) (st : ParserState) (added : Bool) (p : Part) :
    ParserState :=
  match processPart bl st added p with
  | Except.ok (s, _) => s
  | Except.error _ => st

/-- The state a whole chart produces (the start state on error). -/
def chartResult (chart : List (List Part)) (st : ParserState) : ParserState :=
  match runChart chart st with
  | Except.ok s => s
  | Except.error _ => st

/-- Result state of `#BPMCHANGE 180` from `stInit` (fixed-speed family). -/
def stFixedW : ParserState := partResult 1 stInit false (Part.bpmchange 180)

/-- Result state of `#BPMCHANGE 180` from `stBM` (multiplier family). -/
def stRelW : ParserState := partResult 1 stBM false (Part.bpmchange 180)

/-- Result state of the single-cell part `"1"` from `stInit`. -/
def stCellsW : ParserState := partResult 1 stInit false (Part.cells [Cell.digit 1])

/-- Final state of the one-bar chart `"1"` from `stInit`. -/
def stOneNoteW : ParserState := chartResult [[Part.cells [Cell.digit 1]]] stInit

/-- The `NoteList` built from the one-bar chart `"1"`. -/
def nlOneNoteW : NoteList := stOneNoteW.notes

/-- Invariant of the parser state maintained by `notes_to_position` on valid
charts: positive running parameters, the four output sequences non-decreasing
in `hit_ms`, and every emitted entity at or before the cursor. -/
structure Inv (st : ParserState) : Prop where
  bpm_pos : 0 < st.bpm
  ts_pos : 0 < st.time_signature
  play_sorted : SortedN st.notes.play_notes
  draw_sorted : SortedN st.notes.draw_notes
  bars_sorted : SortedN st.notes.bars
  tl_sorted : SortedT st.notes.timeline
  play_le : BoundedN st.notes.play_notes st.current_ms
  draw_le : BoundedN st.notes.draw_notes st.current_ms
  bars_le : BoundedN st.notes.bars st.current_ms

/-! ## Basic lemmas about the ordering predicates -/

theorem BoundedN.mono {l : List Note} {c c' : ℚ}
    (h : BoundedN l c) (hcc : c ≤ c') : BoundedN l c' :=
  fun n hn => le_trans (h n hn) hcc

theorem boundedN_snoc {l : List Note} {c : ℚ} {n : Note}
    (h : BoundedN l c) (hn : n.hit_ms ≤ c) : BoundedN (l ++ [n]) c := by
  intro m hm
  rcases List.mem_append.mp hm with hm | hm
  · exact h m hm
  · simp only [List.mem_singleton] at hm
    exact hm ▸ hn

theorem sortedN_snoc {l : List Note} {n : Note}
    (h : SortedN l) (hb : BoundedN l n.hit_ms) : SortedN (l ++ [n]) := by
  unfold SortedN at *
  rw [List.pairwise_append]
  refine ⟨h, List.pairwise_singleton _ _, ?_⟩
  intro a ha b hb'
  simp only [List.mem_singleton] at hb'
  exact hb' ▸ hb a ha

theorem mem_insortTimeline {l : List TimelineObject} {x z : TimelineObject}
    (h : z ∈ insortTimeline l x) : z = x ∨ z ∈ l := by
  induction l with
  | nil =>
      simp only [insortTimeline, List.mem_singleton] at h
      exact Or.inl h
  | cons y ys ih =>
      simp only [insortTimeline] at h
      split at h
      · rw [List.mem_cons] at h
        rcases h with h | h
        · exact Or.inl h
        · exact Or.inr h
      · rw [List.mem_cons] at h
        rcases h with h | h
        · exact Or.inr (by rw [h]; exact List.mem_cons_self y ys)
        · rcases ih h with h' | h'
          · exact Or.inl h'
          · exact Or.inr (List.mem_cons_of_mem _ h')

theorem sortedT_insort {l : List TimelineObject} {x : TimelineObject}
    (h : SortedT l) : SortedT (insortTimeline l x) := by
  induction l with
  | nil =>
      simp only [insortTimeline, SortedT]
      exact List.pairwise_singleton _ _
  | cons y ys ih =>
      unfold SortedT at *
      rw [List.pairwise_cons] at h
      obtain ⟨hy, hys⟩ := h
      simp only [insortTimeline]
      split
      · rename_i hlt
        rw [List.pairwise_cons]
        refine ⟨?_, ?_⟩
        · intro z hz
          rcases List.mem_cons.mp hz with hz | hz
          · exact hz ▸ le_of_lt hlt
          · exact le_trans (le_of_lt hlt) (hy z hz)
        · rw [List.pairwise_cons]
          exact ⟨hy, hys⟩
      · rename_i hnlt
        rw [List.pairwise_cons]
        refine ⟨?_, ih hys⟩
        intro z hz
        rcases mem_insortTimeline hz with hz | hz
        · exact hz ▸ le_of_not_lt hnlt
        · exact hy z hz

theorem mem_insortLeftIndex {l : List Note} {x z : Note}
    (h : z ∈ insortLeftIndex l x) : z = x ∨ z ∈ l := by
  induction l with
  | nil =>
      simp only [insortLeftIndex, List.mem_singleton] at h
      exact Or.inl h
  | cons y ys ih =>
      simp only [insortLeftIndex] at h
      split at h
      · rw [List.mem_cons] at h
        rcases h with h | h
        · exact Or.inl h
        · exact Or.inr h
      · rw [List.mem_cons] at h
        rcases h with h | h
        · exact Or.inr (by rw [h]; exact List.mem_cons_self y ys)
        · rcases ih h with h' | h'
          · exact Or.inl h'
          · exact Or.inr (List.mem_cons_of_mem _ h')

theorem mem_insortLeftIndex_of_mem {l : List Note} {x y : Note}
    (h : x ∈ l) : x ∈ insortLeftIndex l y := by
  induction l with
  | nil => cases h
  | cons z zs ih =>
      simp only [insortLeftIndex]
      rw [List.mem_cons] at h
      split
      · rcases h with h | h
        · exact List.mem_cons_of_mem _ (by rw [h]; exact List.mem_cons_self z zs)
        · exact List.mem_cons_of_mem _ (List.mem_cons_of_mem _ h)
      · rcases h with h | h
        · rw [h]; exact List.mem_cons_self _ _
        · exact List.mem_cons_of_mem _ (ih h)

theorem self_mem_insortLeftIndex {l : List Note} (x : Note) :
    x ∈ insortLeftIndex l x := by
  induction l with
  | nil => simp [insortLeftIndex]
  | cons y ys ih =>
      simp only [insortLeftIndex]
      split
      · exact List.mem_cons_self _ _
      · exact List.mem_cons_of_mem _ ih

theorem sortedIdx_insort {l : List Note} {x : Note}
    (h : SortedIdx l) : SortedIdx (insortLeftIndex l x) := by
  induction l with
  | nil =>
      simp only [insortLeftIndex, SortedIdx]
      exact List.pairwise_singleton _ _
  | cons y ys ih =>
      unfold SortedIdx at *
      rw [List.pairwise_cons] at h
      obtain ⟨hy, hys⟩ := h
      simp only [insortLeftIndex]
      split
      · rename_i hle
        rw [List.pairwise_cons]
        refine ⟨?_, ?_⟩
        · intro z hz
          rcases List.mem_cons.mp hz with hz | hz
          · exact hz ▸ hle
          · exact le_trans hle (hy z hz)
        · rw [List.pairwise_cons]
          exact ⟨hy, hys⟩
      · rename_i hnle
        rw [List.pairwise_cons]
        refine ⟨?_, ih hys⟩
        intro z hz
        rcases mem_insortLeftIndex hz with hz | hz
        · exact hz ▸ le_of_not_le hnle
        · exact hy z hz

/-! ## Preservation lemmas for the cell loop -/

theorem emitNote_pres {st : ParserState} {note : Note} {inc : ℚ}
    (hinc : 0 ≤ inc) (hms : note.hit_ms = st.current_ms) (hI : Inv st) :
    Inv (emitNote st note inc) := by
  have hle : st.current_ms ≤ st.current_ms + inc := le_add_of_nonneg_right hinc
  refine ⟨hI.bpm_pos, hI.ts_pos, ?_, ?_, hI.bars_sorted, hI.tl_sorted, ?_, ?_, ?_⟩
  · exact sortedN_snoc hI.play_sorted (by rw [hms]; exact hI.play_le)
  · exact sortedN_snoc hI.draw_sorted (by rw [hms]; exact hI.draw_le)
  · exact boundedN_snoc (hI.play_le.mono hle) (le_trans hms.le hle)
  · exact boundedN_snoc (hI.draw_le.mono hle) (le_trans hms.le hle)
  · exact hI.bars_le.mono hle

theorem processCell_shape {inc : ℚ} {st st' : ParserState} {c : Cell}
    (h : processCell inc st c = Except.ok st') :
    st'.bpm = st.bpm ∧ st'.time_signature = st.time_signature ∧
    st'.scroll_type = st.scroll_type ∧
    st'.scroll_x_modifier = st.scroll_x_modifier ∧
    st'.scroll_y_modifier = st.scroll_y_modifier ∧
    st'.notes.timeline = st.notes.timeline ∧
    st'.notes.bars = st.notes.bars ∧
    (∀ n ∈ st'.notes.play_notes,
      n ∈ st.notes.play_notes ∨
        (n.scroll_x = st.scroll_x_modifier ∧ n.scroll_y = st.scroll_y_modifier)) := by
  cases c with
  | hash =>
      simp only [processCell, Except.ok.injEq] at h
      subst h
      exact ⟨rfl, rfl, rfl, rfl, rfl, rfl, rfl, fun n hn => Or.inl hn⟩
  | other =>
      simp only [processCell, Except.ok.injEq] at h
      subst h
      exact ⟨rfl, rfl, rfl, rfl, rfl, rfl, rfl, fun n hn => Or.inl hn⟩
  | digit d =>
      simp only [processCell] at h
      split_ifs at h with h0 h56 h79 h8
      · simp only [Except.ok.injEq] at h
        subst h
        exact ⟨rfl, rfl, rfl, rfl, rfl, rfl, rfl, fun n hn => Or.inl hn⟩
      · simp only [Except.ok.injEq] at h
        subst h
        refine ⟨rfl, rfl, rfl, rfl, rfl, rfl, rfl, ?_⟩
        intro n hn
        rcases List.mem_append.mp hn with hn | hn
        · exact Or.inl hn
        · simp only [List.mem_singleton] at hn
          subst hn
          exact Or.inr ⟨rfl, rfl⟩
      · simp only [Except.ok.injEq] at h
        subst h
        refine ⟨rfl, rfl, rfl, rfl, rfl, rfl, rfl, ?_⟩
        intro n hn
        rcases List.mem_append.mp hn with hn | hn
        · exact Or.inl hn
        · simp only [List.mem_singleton] at hn
          subst hn
          exact Or.inr ⟨rfl, rfl⟩
      · cases hp : st.prev_note with
        | none => rw [hp] at h; cases h
        | some pn =>
            rw [hp] at h
            simp only [Except.ok.injEq] at h
            subst h
            refine ⟨rfl, rfl, rfl, rfl, rfl, rfl, rfl, ?_⟩
            intro n hn
            rcases List.mem_append.mp hn with hn | hn
            · exact Or.inl hn
            · simp only [List.mem_singleton] at hn
              subst hn
              exact Or.inr ⟨rfl, rfl⟩
      · simp only [Except.ok.injEq] at h
        subst h
        refine ⟨rfl, rfl, rfl, rfl, rfl, rfl, rfl, ?_⟩
        intro n hn
        rcases List.mem_append.mp hn with hn | hn
        · exact Or.inl hn
        · simp only [List.mem_singleton] at hn
          subst hn
          exact Or.inr ⟨rfl, rfl⟩

theorem processCell_inv {inc : ℚ} {st st' : ParserState} {c : Cell}
    (hinc : 0 ≤ inc) (h : processCell inc st c = Except.ok st') (hI : Inv st) :
    Inv st' ∧ st.current_ms ≤ st'.current_ms := by
  have hle : st.current_ms ≤ st.current_ms + inc := le_add_of_nonneg_right hinc
  cases c with
  | hash =>
      simp only [processCell, Except.ok.injEq] at h
      subst h
      exact ⟨⟨hI.bpm_pos, hI.ts_pos, hI.play_sorted, hI.draw_sorted, hI.bars_sorted,
        hI.tl_sorted, hI.play_le.mono hle, hI.draw_le.mono hle, hI.bars_le.mono hle⟩, hle⟩
  | other =>
      simp only [processCell, Except.ok.injEq] at h
      subst h
      exact ⟨⟨hI.bpm_pos, hI.ts_pos, hI.play_sorted, hI.draw_sorted, hI.bars_sorted,
        hI.tl_sorted, hI.play_le.mono hle, hI.draw_le.mono hle, hI.bars_le.mono hle⟩, hle⟩
  | digit d =>
      simp only [processCell] at h
      split_ifs at h with h0 h56 h79 h8
      · simp only [Except.ok.injEq] at h
        subst h
        exact ⟨⟨hI.bpm_pos, hI.ts_pos, hI.play_sorted, hI.draw_sorted, hI.bars_sorted,
          hI.tl_sorted, hI.play_le.mono hle, hI.draw_le.mono hle, hI.bars_le.mono hle⟩, hle⟩
      · simp only [Except.ok.injEq] at h
        subst h
        exact ⟨emitNote_pres hinc rfl hI, hle⟩
      · simp only [Except.ok.injEq] at h
        subst h
        exact ⟨emitNote_pres hinc rfl
          ⟨hI.bpm_pos, hI.ts_pos, hI.play_sorted, hI.draw_sorted, hI.bars_sorted,
            hI.tl_sorted, hI.play_le, hI.draw_le, hI.bars_le⟩, hle⟩
      · cases hp : st.prev_note with
        | none => rw [hp] at h; cases h
        | some pn =>
            rw [hp] at h
            simp only [Except.ok.injEq] at h
            subst h
            exact ⟨emitNote_pres hinc rfl hI, hle⟩
      · simp only [Except.ok.injEq] at h
        subst h
        exact ⟨emitNote_pres hinc rfl hI, hle⟩

theorem runCells_inv {inc : ℚ} (hinc : 0 ≤ inc) {cells : List Cell}
    {st st' : ParserState} (h : runCells inc cells st = Except.ok st')
    (hI : Inv st) : Inv st' ∧ st.current_ms ≤ st'.current_ms := by
  induction cells generalizing st with
  | nil =>
      simp only [runCells, Except.ok.injEq] at h
      subst h
      exact ⟨hI, le_refl _⟩
  | cons c rest ih =>
      simp only [runCells] at h
      cases hc : processCell inc st c with
      | error e => rw [hc] at h; cases h
      | ok st1 =>
          rw [hc] at h
          obtain ⟨hI1, hle1⟩ := processCell_inv hinc hc hI
          obtain ⟨hI2, hle2⟩ := ih h hI1
          exact ⟨hI2, le_trans hle1 hle2⟩

/-! ## Preservation lemmas for parts, bars and the whole chart -/

theorem processPart_inv {bl : ℕ} {st : ParserState} {added : Bool} {p : Part}
    {st' : ParserState} {added' : Bool}
    (h : processPart bl st added p = Except.ok (st', added'))
    (hp : ValidPart p) (hI : Inv st) :
    Inv st' ∧ st.current_ms ≤ st'.current_ms := by
  cases p with
  | measure a b =>
      simp only [processPart, Except.ok.injEq, Prod.mk.injEq] at h
      obtain ⟨h1, _⟩ := h
      subst h1
      exact ⟨⟨hI.bpm_pos, hp, hI.play_sorted, hI.draw_sorted, hI.bars_sorted,
        hI.tl_sorted, hI.play_le, hI.draw_le, hI.bars_le⟩, le_refl _⟩
  | scroll value =>
      simp only [processPart] at h
      split_ifs at h with h1 h2
      · simp only [Except.ok.injEq, Prod.mk.injEq] at h
        obtain ⟨h1', _⟩ := h
        subst h1'
        exact ⟨hI, le_refl _⟩
      · cases hc : pyComplex (normalizeScroll value) with
        | none => rw [hc] at h; cases h
        | some q =>
            obtain ⟨re, im⟩ := q
            rw [hc] at h
            simp only [Except.ok.injEq, Prod.mk.injEq] at h
            obtain ⟨h1', _⟩ := h
            subst h1'
            exact ⟨⟨hI.bpm_pos, hI.ts_pos, hI.play_sorted, hI.draw_sorted,
              hI.bars_sorted, hI.tl_sorted, hI.play_le, hI.draw_le, hI.bars_le⟩,
              le_refl _⟩
      · cases hc : pyFloat value with
        | none => rw [hc] at h; cases h
        | some v =>
            rw [hc] at h
            simp only [Except.ok.injEq, Prod.mk.injEq] at h
            obtain ⟨h1', _⟩ := h
            subst h1'
            exact ⟨⟨hI.bpm_pos, hI.ts_pos, hI.play_sorted, hI.draw_sorted,
              hI.bars_sorted, hI.tl_sorted, hI.play_le, hI.draw_le, hI.bars_le⟩,
              le_refl _⟩
  | bpmchange v =>
      simp only [processPart] at h
      split_ifs at h with h1
      · simp only [Except.ok.injEq, Prod.mk.injEq] at h
        obtain ⟨h1', _⟩ := h
        subst h1'
        exact ⟨⟨hI.bpm_pos, hI.ts_pos, hI.play_sorted, hI.draw_sorted,
          hI.bars_sorted, sortedT_insort hI.tl_sorted, hI.play_le, hI.draw_le, hI.bars_le⟩,
          le_refl _⟩
      · simp only [Except.ok.injEq, Prod.mk.injEq] at h
        obtain ⟨h1', _⟩ := h
        subst h1'
        exact ⟨⟨hp, hI.ts_pos, hI.play_sorted, hI.draw_sorted,
          hI.bars_sorted, sortedT_insort hI.tl_sorted, hI.play_le, hI.draw_le, hI.bars_le⟩,
          le_refl _⟩
  | directive len hh =>
      simp only [processPart, Except.ok.injEq, Prod.mk.injEq] at h
      obtain ⟨h1, _⟩ := h
      subst h1
      exact ⟨hI, le_refl _⟩
  | cells items =>
      have hmpm : 0 < get_ms_per_measure st.bpm st.time_signature :=
        div_pos (mul_pos (by norm_num) hI.ts_pos) hI.bpm_pos
      have hI1 : Inv (appendBarLine st added) :=
        ⟨hI.bpm_pos, hI.ts_pos, hI.play_sorted, hI.draw_sorted,
          sortedN_snoc hI.bars_sorted hI.bars_le, hI.tl_sorted, hI.play_le,
          hI.draw_le, boundedN_snoc hI.bars_le (le_refl _)⟩
      simp only [processPart] at h
      cases items with
      | nil =>
          simp only [Except.ok.injEq, Prod.mk.injEq] at h
          obtain ⟨h1, _⟩ := h
          subst h1
          refine ⟨⟨hI1.bpm_pos, hI1.ts_pos, hI1.play_sorted, hI1.draw_sorted,
            hI1.bars_sorted, hI1.tl_sorted, ?_, ?_, ?_⟩,
            le_add_of_nonneg_right hmpm.le⟩
          · exact hI1.play_le.mono (le_add_of_nonneg_right hmpm.le)
          · exact hI1.draw_le.mono (le_add_of_nonneg_right hmpm.le)
          · exact hI1.bars_le.mono (le_add_of_nonneg_right hmpm.le)
      | cons c cs =>
          have hinc : 0 ≤ get_ms_per_measure st.bpm st.time_signature / (bl : ℚ) :=
            div_nonneg hmpm.le (Nat.cast_nonneg bl)
          cases hr : runCells (get_ms_per_measure st.bpm st.time_signature / (bl : ℚ))
              (c :: cs) (appendBarLine st added) with
          | error e => rw [hr] at h; cases h
          | ok st1 =>
              rw [hr] at h
              simp only [Except.ok.injEq, Prod.mk.injEq] at h
              obtain ⟨h1, _⟩ := h
              subst h1
              obtain ⟨hI2, hle2⟩ := runCells_inv hinc hr hI1
              exact ⟨hI2, hle2⟩

theorem runParts_inv {bl : ℕ} {parts : List Part} {st st' : ParserState}
    {added added' : Bool}
    (h : runParts bl parts st added = Except.ok (st', added'))
    (hv : ∀ p ∈ parts, ValidPart p) (hI : Inv st) :
    Inv st' ∧ st.current_ms ≤ st'.current_ms := by
  induction parts generalizing st added with
  | nil =>
      simp only [runParts, Except.ok.injEq, Prod.mk.injEq] at h
      obtain ⟨h1, _⟩ := h
      subst h1
      exact ⟨hI, le_refl _⟩
  | cons p rest ih =>
      simp only [runParts] at h
      cases hc : processPart bl st added p with
      | error e => rw [hc] at h; cases h
      | ok pr =>
          obtain ⟨st1, added1⟩ := pr
          rw [hc] at h
          obtain ⟨hI1, hle1⟩ := processPart_inv hc (hv p (List.mem_cons_self p rest)) hI
          obtain ⟨hI2, hle2⟩ := ih h (fun q hq => hv q (List.mem_cons_of_mem p hq)) hI1
          exact ⟨hI2, le_trans hle1 hle2⟩

theorem processBar_inv {st st' : ParserState} {bar : List Part}
    (h : processBar st bar = Except.ok st')
    (hv : ∀ p ∈ bar, ValidPart p) (hI : Inv st) :
    Inv st' ∧ st.current_ms ≤ st'.current_ms := by
  simp only [processBar] at h
  cases hr : runParts (barLength bar) bar st false with
  | error e => rw [hr] at h; cases h
  | ok pr =>
      obtain ⟨st1, added1⟩ := pr
      rw [hr] at h
      simp only [Except.ok.injEq] at h
      subst h
      exact runParts_inv hr hv hI

theorem runChart_inv {chart : List (List Part)} {st st' : ParserState}
    (h : runChart chart st = Except.ok st')
    (hv : ∀ bar ∈ chart, ∀ p ∈ bar, ValidPart p) (hI : Inv st) :
    Inv st' ∧ st.current_ms ≤ st'.current_ms := by
  induction chart generalizing st with
  | nil =>
      simp only [runChart, Except.ok.injEq] at h
      subst h
      exact ⟨hI, le_refl _⟩
  | cons bar rest ih =>
      simp only [runChart] at h
      cases hc : processBar st bar with
      | error e => rw [hc] at h; cases h
      | ok st1 =>
          rw [hc] at h
          obtain ⟨hI1, hle1⟩ := processBar_inv hc (hv bar (List.mem_cons_self bar rest)) hI
          obtain ⟨hI2, hle2⟩ := ih h (fun b hb => hv b (List.mem_cons_of_mem bar hb)) hI1
          exact ⟨hI2, le_trans hle1 hle2⟩

theorem initState_inv {start bpm0 : ℚ} {balloon0 : List ℕ} (h : 0 < bpm0) :
    Inv (initState start bpm0 balloon0) := by
  refine ⟨h, by norm_num [initState], List.Pairwise.nil, List.Pairwise.nil, List.Pairwise.nil,
    List.pairwise_singleton _ _, ?_, ?_, ?_⟩ <;>
    exact fun n hn => absurd hn (List.not_mem_nil n)

/-! ## Shape lemmas: what the cell loop can and cannot touch -/

theorem runCells_shape {inc : ℚ} {cells : List Cell} {st st' : ParserState}
    (h : runCells inc cells st = Except.ok st') :
    st'.bpm = st.bpm ∧ st'.time_signature = st.time_signature ∧
    st'.scroll_type = st.scroll_type ∧
    st'.scroll_x_modifier = st.scroll_x_modifier ∧
    st'.scroll_y_modifier = st.scroll_y_modifier ∧
    st'.notes.timeline = st.notes.timeline ∧
    st'.notes.bars = st.notes.bars ∧
    (∀ n ∈ st'.notes.play_notes,
      n ∈ st.notes.play_notes ∨
        (n.scroll_x = st.scroll_x_modifier ∧ n.scroll_y = st.scroll_y_modifier)) := by
  induction cells generalizing st with
  | nil =>
      simp only [runCells, Except.ok.injEq] at h
      subst h
      exact ⟨rfl, rfl, rfl, rfl, rfl, rfl, rfl, fun n hn => Or.inl hn⟩
  | cons c rest ih =>
      simp only [runCells] at h
      cases hc : processCell inc st c with
      | error e => rw [hc] at h; cases h
      | ok st1 =>
          rw [hc] at h
          obtain ⟨hb1, ht1, hs1, hx1, hy1, htl1, hbar1, hp1⟩ := processCell_shape hc
          obtain ⟨hb2, ht2, hs2, hx2, hy2, htl2, hbar2, hp2⟩ := ih h
          refine ⟨hb2.trans hb1, ht2.trans ht1, hs2.trans hs1, hx2.trans hx1,
            hy2.trans hy1, htl2.trans htl1, hbar2.trans hbar1, ?_⟩
          intro n hn
          rcases hp2 n hn with hn' | hn'
          · rcases hp1 n hn' with hn'' | hn''
            · exact Or.inl hn''
            · exact Or.inr hn''
          · rw [hx1, hy1] at hn'
            exact Or.inr hn'

/-- Every note and the bar line emitted while processing a cells part carry
the scroll modifiers current when the part began. -/
theorem processPart_cells_stamp {bl : ℕ} {st : ParserState} {added : Bool}
    {items : List Cell} {st' : ParserState} {added' : Bool}
    (h : processPart bl st added (Part.cells items) = Except.ok (st', added')) :
    (∀ n ∈ st'.notes.play_notes,
      n ∈ st.notes.play_notes ∨
        (n.scroll_x = st.scroll_x_modifier ∧ n.scroll_y = st.scroll_y_modifier)) ∧
    (∀ n ∈ st'.notes.bars,
      n ∈ st.notes.bars ∨
        (n.scroll_x = st.scroll_x_modifier ∧ n.scroll_y = st.scroll_y_modifier)) := by
  have hbar :
      ∀ n ∈ (appendBarLine st added).notes.bars,
        n ∈ st.notes.bars ∨
          (n.scroll_x = st.scroll_x_modifier ∧ n.scroll_y = st.scroll_y_modifier) := by
    intro n hn
    rcases List.mem_append.mp hn with hn | hn
    · exact Or.inl hn
    · simp only [List.mem_singleton] at hn
      subst hn
      exact Or.inr ⟨rfl, rfl⟩
  simp only [processPart] at h
  cases items with
  | nil =>
      simp only [Except.ok.injEq, Prod.mk.injEq] at h
      obtain ⟨h1, _⟩ := h
      subst h1
      exact ⟨fun n hn => Or.inl hn, hbar⟩
  | cons c cs =>
      cases hr : runCells (get_ms_per_measure st.bpm st.time_signature / (bl : ℚ))
          (c :: cs) (appendBarLine st added) with
      | error e => rw [hr] at h; cases h
      | ok st1 =>
          rw [hr] at h
          simp only [Except.ok.injEq, Prod.mk.injEq] at h
          obtain ⟨h1, _⟩ := h
          subst h1
          obtain ⟨_, _, _, _, _, _, hbar1, hp1⟩ := runCells_shape hr
          refine ⟨fun n hn => hp1 n hn, ?_⟩
          intro n hn
          rw [hbar1] at hn
          exact hbar n hn

/-! ## The scroll family is fixed throughout `notes_to_position` -/

theorem processPart_fixed {bl : ℕ} {st : ParserState} {added : Bool} {p : Part}
    {st' : ParserState} {added' : Bool}
    (h : processPart bl st added p = Except.ok (st', added'))
    (hs : st.scroll_type = ScrollType.NMSCROLL) (ht : AbsoluteTimeline st) :
    st'.scroll_type = ScrollType.NMSCROLL ∧ AbsoluteTimeline st' := by
  cases p with
  | measure a b =>
      simp only [processPart, Except.ok.injEq, Prod.mk.injEq] at h
      obtain ⟨h1, _⟩ := h
      subst h1
      exact ⟨hs, ht⟩
  | scroll value =>
      simp only [processPart] at h
      split_ifs at h with h1 h2
      · simp only [Except.ok.injEq, Prod.mk.injEq] at h
        obtain ⟨h1', _⟩ := h
        subst h1'
        exact ⟨hs, ht⟩
      · cases hc : pyComplex (normalizeScroll value) with
        | none => rw [hc] at h; cases h
        | some q =>
            obtain ⟨re, im⟩ := q
            rw [hc] at h
            simp only [Except.ok.injEq, Prod.mk.injEq] at h
            obtain ⟨h1', _⟩ := h
            subst h1'
            exact ⟨hs, ht⟩
      · cases hc : pyFloat value with
        | none => rw [hc] at h; cases h
        | some v =>
            rw [hc] at h
            simp only [Except.ok.injEq, Prod.mk.injEq] at h
            obtain ⟨h1', _⟩ := h
            subst h1'
            exact ⟨hs, ht⟩
  | bpmchange v =>
      simp only [processPart] at h
      split_ifs at h with h1
      · rw [hs] at h1
        rcases h1 with h1 | h1 <;> exact absurd h1 (by decide)
      · simp only [Except.ok.injEq, Prod.mk.injEq] at h
        obtain ⟨h1', _⟩ := h
        subst h1'
        refine ⟨hs, ?_⟩
        intro ev hev
        rcases mem_insortTimeline hev with hev | hev
        · subst hev
          rfl
        · exact ht ev hev
  | directive len hh =>
      simp only [processPart, Except.ok.injEq, Prod.mk.injEq] at h
      obtain ⟨h1, _⟩ := h
      subst h1
      exact ⟨hs, ht⟩
  | cells items =>
      simp only [processPart] at h
      cases items with
      | nil =>
          simp only [Except.ok.injEq, Prod.mk.injEq] at h
          obtain ⟨h1, _⟩ := h
          subst h1
          exact ⟨hs, ht⟩
      | cons c cs =>
          cases hr : runCells (get_ms_per_measure st.bpm st.time_signature / (bl : ℚ))
              (c :: cs) (appendBarLine st added) with
          | error e => rw [hr] at h; cases h
          | ok st1 =>
              rw [hr] at h
              simp only [Except.ok.injEq, Prod.mk.injEq] at h
              obtain ⟨h1, _⟩ := h
              subst h1
              obtain ⟨_, _, hs1, _, _, htl1, _, _⟩ := runCells_shape hr
              refine ⟨hs1.trans hs, ?_⟩
              intro ev hev
              rw [htl1] at hev
              exact ht ev hev

theorem runParts_fixed {bl : ℕ} {parts : List Part} {st st' : ParserState}
    {added added' : Bool}
    (h : runParts bl parts st added = Except.ok (st', added'))
    (hs : st.scroll_type = ScrollType.NMSCROLL) (ht : AbsoluteTimeline st) :
    st'.scroll_type = ScrollType.NMSCROLL ∧ AbsoluteTimeline st' := by
  induction parts generalizing st added with
  | nil =>
      simp only [runParts, Except.ok.injEq, Prod.mk.injEq] at h
      obtain ⟨h1, _⟩ := h
      subst h1
      exact ⟨hs, ht⟩
  | cons p rest ih =>
      simp only [runParts] at h
      cases hc : processPart bl st added p with
      | error e => rw [hc] at h; cases h
      | ok pr =>
          obtain ⟨st1, added1⟩ := pr
          rw [hc] at h
          obtain ⟨hs1, ht1⟩ := processPart_fixed hc hs ht
          exact ih h hs1 ht1

theorem runChart_fixed {chart : List (List Part)} {st st' : ParserState}
    (h : runChart chart st = Except.ok st')
    (hs : st.scroll_type = ScrollType.NMSCROLL) (ht : AbsoluteTimeline st) :
    st'.scroll_type = ScrollType.NMSCROLL ∧ AbsoluteTimeline st' := by
  induction chart generalizing st with
  | nil =>
      simp only [runChart, Except.ok.injEq] at h
      subst h
      exact ⟨hs, ht⟩
  | cons bar rest ih =>
      simp only [runChart] at h
      cases hc : processBar st bar with
      | error e => rw [hc] at h; cases h
      | ok st1 =>
          rw [hc] at h
          simp only [processBar] at hc
          rcases hr : runParts (barLength bar) bar st false with e | pr
          · rw [hr] at hc; cases hc
          · obtain ⟨st2, added2⟩ := pr
            rw [hr] at hc
            simp only [Except.ok.injEq] at hc
            subst hc
            obtain ⟨hs1, ht1⟩ := runParts_fixed hr hs ht
            exact ih h hs1 ht1

/-! ## Claim C1 — balloon-count exhaustion -/

/-- C1 counterexample: the claim says a chart whose balloon cells outnumber
the declared per-difficulty count list makes `notes_to_position` fail fatally
at the first excess balloon.  In fact a chart with one `'7'` cell and an
empty declared list loads successfully, and the balloon silently receives the
default count 1 (`note.count = 1 if not balloon else balloon.pop(0)`,
tja2.py line 253; the `raise` on line 248 fires only for `balloon is None`,
which cannot happen after `.copy()` on line 142). -/
theorem C1_counterexample :
    (notes_to_position [[Part.cells [Cell.digit 7]]] 0 120 []).map
        (fun nl => nl.play_notes.map (fun n => (n.cls, n.count))) =
      Except.ok [(NoteClass.balloon, 1)] := by decide

/-- C1 (amended): when the declared balloon list is exhausted (empty), a
`'7'`/`'9'` cell does not abort the load: `notes_to_position` emits the
balloon with the default hit count 1 and continues (counts are popped FIFO
only while the list is non-empty). -/
theorem C1_amended_theorem {inc : ℚ} {st : ParserState} (h : st.balloon = [])
    {d : ℕ} (hd : d = 7 ∨ d = 9) :
    processCell inc st (Cell.digit d) =
      Except.ok (emitNote { st with count := st.count + 1, balloon := [] }
        { mkCellNote st d with cls := NoteClass.balloon, count := 1, is_kusudama := d == 9 }
        inc) := by
  rcases hd with rfl | rfl <;> simp [processCell, h]

/-- C1 witness: the amended statement evaluated at the initial state of a
chart with no declared balloon counts. -/
theorem C1_witness :
    stInit.balloon = [] ∧
    processCell 0 stInit (Cell.digit 7) =
      Except.ok (emitNote { stInit with count := stInit.count + 1, balloon := [] }
        { mkCellNote stInit 7 with cls := NoteClass.balloon, count := 1, is_kusudama := (7 : ℕ) == 9 }
        0) :=
  ⟨rfl, C1_amended_theorem rfl (Or.inl rfl)⟩

/-! ## Claim C2 — pulling the paired TAIL into the active set -/

/-- C2 counterexample: the claim says a popped `KUSUDAMA` (type 9) head also
pulls its paired `TAIL` into the active set in the same frame.  The source
guard is `5 <= current_note.type <= 7` (game2.py line 115), which excludes
`KUSUDAMA = 9`: popping a kusudama head leaves its `TAIL` in the queue. -/
theorem C2_counterexample :
    draw_note_manager_pop 0 ⟨[kusuW, tailW], []⟩ =
      Except.ok ⟨[tailW], [kusuW]⟩ := by
  norm_num [draw_note_manager_pop, kusuW, tailW, insortLeftIndex]

/-- C2 (amended): when `draw_note_manager` pops a `ROLL_HEAD`, `ROLL_HEAD_L`
or `BALLOON_HEAD` (type 5, 6 or 7 — not `KUSUDAMA`) within the lookahead, it
pulls the first `TAIL` remaining in the queue out of FIFO order into the
active set in the same frame, both inserted by ascending `index` (the active
set stays sorted by `index`). -/
theorem C2_amended_theorem {cm : ℚ} {head tl : Note} {rest act : List Note}
    (hlook : head.hit_ms - 10000 ≤ cm)
    (htype : head.type = 5 ∨ head.type = 6 ∨ head.type = 7)
    (hfind : rest.find? (fun n => n.type == NoteType.TAIL) = some tl)
    (hsorted : SortedIdx act) :
    draw_note_manager_pop cm ⟨head :: rest, act⟩ =
      Except.ok ⟨removeNote rest tl,
        insortLeftIndex (insortLeftIndex act head) tl⟩ ∧
    head ∈ insortLeftIndex (insortLeftIndex act head) tl ∧
    tl ∈ insortLeftIndex (insortLeftIndex act head) tl ∧
    SortedIdx (insortLeftIndex (insortLeftIndex act head) tl) := by
  have hrange : 5 ≤ head.type ∧ head.type ≤ 7 := by
    rcases htype with h | h | h <;> rw [h] <;> exact ⟨by norm_num, by norm_num⟩
  refine ⟨?_, mem_insortLeftIndex_of_mem (self_mem_insortLeftIndex head),
    self_mem_insortLeftIndex tl, sortedIdx_insort (sortedIdx_insort hsorted)⟩
  simp only [draw_note_manager_pop]
  rw [if_pos hlook, if_pos hrange, hfind]

/-- C2 witness: the amended statement evaluated on a roll head followed by
its tail, with an empty active set. -/
theorem C2_witness :
    draw_note_manager_pop 0 ⟨[rollHeadW, tailW], []⟩ =
      Except.ok ⟨removeNote [tailW] tailW,
        insortLeftIndex (insortLeftIndex [] rollHeadW) tailW⟩ ∧
    rollHeadW ∈ insortLeftIndex (insortLeftIndex [] rollHeadW) tailW ∧
    tailW ∈ insortLeftIndex (insortLeftIndex [] rollHeadW) tailW ∧
    SortedIdx (insortLeftIndex (insortLeftIndex [] rollHeadW) tailW) :=
  C2_amended_theorem (by norm_num [rollHeadW]) (Or.inl rfl) (by decide)
    List.Pairwise.nil

/-! ## Claim C3 — the four output sequences are non-decreasing in hit_ms -/

/-- C3: for every valid chart (positive initial BPM, every `#MEASURE` keeping
the time signature positive and every `#BPMCHANGE` value positive), the
`play_notes`, `draw_notes`, `bars` and `timeline` sequences returned by
`notes_to_position` are each non-decreasing in `hit_ms`; moreover the ordered
(binary-search) insertion used for BPM events keeps any sorted timeline
sorted, so the timeline is sorted after every insertion made during
parsing. -/
theorem C3_theorem {chart : List (List Part)} {start bpm0 : ℚ}
    {balloon0 : List ℕ} {nl : NoteList} (hbpm : 0 < bpm0) (hv : ValidChart chart)
    (h : notes_to_position chart start bpm0 balloon0 = Except.ok nl) :
    (SortedN nl.play_notes ∧ SortedN nl.draw_notes ∧ SortedN nl.bars ∧
      SortedT nl.timeline) ∧
    ∀ (l : List TimelineObject) (x : TimelineObject),
      SortedT l → SortedT (insortTimeline l x) := by
  refine ⟨?_, fun l x hl => sortedT_insort hl⟩
  simp only [notes_to_position] at h
  cases hr : runChart chart (initState start bpm0 balloon0) with
  | error e => rw [hr] at h; cases h
  | ok stF =>
      rw [hr] at h
      simp only [Except.ok.injEq] at h
      subst h
      obtain ⟨hI, _⟩ := runChart_inv hr hv (initState_inv hbpm)
      exact ⟨hI.play_sorted, hI.draw_sorted, hI.bars_sorted, hI.tl_sorted⟩

/-- C3 witness: the theorem evaluated on the one-bar chart `"1"` at 120
BPM. -/
theorem C3_witness :
    (SortedN nlOneNoteW.play_notes ∧ SortedN nlOneNoteW.draw_notes ∧
      SortedN nlOneNoteW.bars ∧ SortedT nlOneNoteW.timeline) ∧
    ∀ (l : List TimelineObject) (x : TimelineObject),
      SortedT l → SortedT (insortTimeline l x) :=
  @C3_theorem [[Part.cells [Cell.digit 1]]] 0 120 [] nlOneNoteW (by norm_num)
    (by decide)
    (by simp +decide [nlOneNoteW, stOneNoteW, chartResult, notes_to_position,
      runChart, processBar, runParts, processPart, runCells, processCell, initState,
      appendBarLine, mkBarLine, mkCellNote, emitNote, get_ms_per_measure, barLength,
      partBarLen])

/-! ## Claim C4 — the two `#BPMCHANGE` branches -/

/-- C4: under the fixed-speed scroll family (`NMSCROLL`), `#BPMCHANGE v`
mutates the running BPM to `v` and inserts an absolute-BPM timeline event at
the current cursor time, leaving the emitted note lists untouched; under a
multiplier family (`BMSCROLL`/`HBSCROLL`) it instead inserts a relative
event `v / bpmchange_last_bpm` (the previous `#BPMCHANGE` value, initially
the chart BPM), records `v` as the new last value, and leaves the running
BPM and every already-placed note — hence the `bpm` stamped on them —
unchanged. -/
theorem C4_theorem {bl : ℕ} {st : ParserState} {added : Bool} {v : ℚ}
    {st' : ParserState} {added' : Bool} :
    (st.scroll_type = ScrollType.NMSCROLL →
      processPart bl st added (Part.bpmchange v) = Except.ok (st', added') →
      st'.bpm = v ∧
      st'.notes.timeline =
        insortTimeline st.notes.timeline { hit_ms := st.current_ms, bpm := some v } ∧
      st'.notes.play_notes = st.notes.play_notes ∧
      st'.notes.draw_notes = st.notes.draw_notes ∧
      st'.notes.bars = st.notes.bars ∧ st'.current_ms = st.current_ms) ∧
    ((st.scroll_type = ScrollType.BMSCROLL ∨ st.scroll_type = ScrollType.HBSCROLL) →
      processPart bl st added (Part.bpmchange v) = Except.ok (st', added') →
      st'.bpm = st.bpm ∧ st'.bpmchange_last_bpm = v ∧
      st'.notes.timeline =
        insortTimeline st.notes.timeline
          { hit_ms := st.current_ms, bpmchange := some (v / st.bpmchange_last_bpm) } ∧
      st'.notes.play_notes = st.notes.play_notes ∧
      st'.notes.draw_notes = st.notes.draw_notes ∧
      st'.notes.bars = st.notes.bars ∧ st'.current_ms = st.current_ms) := by
  constructor
  · intro hs h
    have hcond : ¬(st.scroll_type = ScrollType.BMSCROLL ∨
        st.scroll_type = ScrollType.HBSCROLL) := by
      rw [hs]; decide
    simp only [processPart] at h
    rw [if_neg hcond] at h
    simp only [Except.ok.injEq, Prod.mk.injEq] at h
    obtain ⟨h2, _⟩ := h
    subst h2
    exact ⟨rfl, rfl, rfl, rfl, rfl, rfl⟩
  · intro hs h
    simp only [processPart] at h
    rw [if_pos hs] at h
    simp only [Except.ok.injEq, Prod.mk.injEq] at h
    obtain ⟨h2, _⟩ := h
    subst h2
    exact ⟨rfl, rfl, rfl, rfl, rfl, rfl, rfl⟩

/-- C4 witness: both branches evaluated at `#BPMCHANGE 180` from the
chart-initial state, once under `NMSCROLL` and once under `BMSCROLL`. -/
theorem C4_witness :
    (stFixedW.bpm = 180 ∧
      stFixedW.notes.timeline =
        insortTimeline stInit.notes.timeline
          { hit_ms := stInit.current_ms, bpm := some 180 } ∧
      stFixedW.notes.play_notes = stInit.notes.play_notes ∧
      stFixedW.notes.draw_notes = stInit.notes.draw_notes ∧
      stFixedW.notes.bars = stInit.notes.bars ∧
      stFixedW.current_ms = stInit.current_ms) ∧
    (stRelW.bpm = stBM.bpm ∧ stRelW.bpmchange_last_bpm = 180 ∧
      stRelW.notes.timeline =
        insortTimeline stBM.notes.timeline
          { hit_ms := stBM.current_ms,
            bpmchange := some (180 / stBM.bpmchange_last_bpm) } ∧
      stRelW.notes.play_notes = stBM.notes.play_notes ∧
      stRelW.notes.draw_notes = stBM.notes.draw_notes ∧
      stRelW.notes.bars = stBM.notes.bars ∧
      stRelW.current_ms = stBM.current_ms) :=
  ⟨(@C4_theorem 1 stInit false 180 stFixedW false).1 rfl
      (by simp +decide [stFixedW, partResult, stInit, processPart, initState]),
    (@C4_theorem 1 stBM false 180 stRelW false).2 (Or.inl rfl)
      (by simp +decide [stRelW, partResult, stBM, stInit, processPart, initState])⟩

/-! ## Claim C5 — `#SCROLL` literals and stamping -/

/-- C5 counterexample: the claim says the complex-literal form `"x,yi"` sets
the horizontal multiplier to `x` and the vertical to `y`.  On the chart
directive `#SCROLL 1,2i` the normalisation of tja2.py lines 176–177 deletes
the comma, producing the pure-imaginary literal `12j`: the note emitted
afterwards is stamped `(scroll_x, scroll_y) = (0, 12)`, not `(1, 2)`. -/
theorem C5_counterexample :
    (notes_to_position [[Part.scroll ['1', ',', '2', 'i'], Part.cells [Cell.digit 1]]]
        0 120 []).map
        (fun nl => nl.play_notes.map (fun n => (n.scroll_x, n.scroll_y))) =
      Except.ok [((0 : ℚ), (12 : ℚ))] ∧
    ((0 : ℚ), (12 : ℚ)) ≠ ((1 : ℚ), (2 : ℚ)) := by
  constructor
  · decide
  · decide

/-- C5 (amended): under the fixed scroll family, a plain numeric `#SCROLL v`
sets the horizontal multiplier to `v` and resets the vertical to 0; the
complex form that sets horizontal `x` and vertical `y` is `"x+yi"` (e.g.
`1+2i` gives `(1, 2)`), while a comma form `"x,yi"` has its comma deleted
during normalisation and yields horizontal 0 and vertical `float(xy)` (e.g.
`1,2i` gives `(0, 12)`); every note and bar line emitted by a subsequent
cells part is stamped with the modifiers current when that part began. -/
theorem C5_amended_theorem {bl : ℕ} {st : ParserState} {added : Bool}
    (hs : st.scroll_type = ScrollType.NMSCROLL) :
    (∀ value v, value.contains 'i' = false → pyFloat value = some v →
      processPart bl st added (Part.scroll value) =
        Except.ok ({ st with scroll_x_modifier := v, scroll_y_modifier := 0 }, added)) ∧
    (processPart bl st added (Part.scroll ['1', '+', '2', 'i']) =
      Except.ok ({ st with scroll_x_modifier := 1, scroll_y_modifier := 2 }, added)) ∧
    (processPart bl st added (Part.scroll ['1', ',', '2', 'i']) =
      Except.ok ({ st with scroll_x_modifier := 0, scroll_y_modifier := 12 }, added)) ∧
    (∀ items st' added',
      processPart bl st added (Part.cells items) = Except.ok (st', added') →
      (∀ n ∈ st'.notes.play_notes,
        n ∈ st.notes.play_notes ∨
          (n.scroll_x = st.scroll_x_modifier ∧ n.scroll_y = st.scroll_y_modifier)) ∧
      (∀ n ∈ st'.notes.bars,
        n ∈ st.notes.bars ∨
          (n.scroll_x = st.scroll_x_modifier ∧ n.scroll_y = st.scroll_y_modifier))) := by
  refine ⟨?_, ?_, ?_, fun items st' added' h => processPart_cells_stamp h⟩
  · intro value v hci hv
    simp only [processPart, hs, hci, hv]
    simp +decide
  · have hc : pyComplex (normalizeScroll ['1', '+', '2', 'i']) = some (1, 2) := by
      decide
    simp only [processPart, hs]
    simp +decide [hc]
  · have hc : pyComplex (normalizeScroll ['1', ',', '2', 'i']) = some (0, 12) := by
      decide
    simp only [processPart, hs]
    simp +decide [hc]

/-- C5 witness: the amended statement evaluated from the chart-initial state:
plain `#SCROLL 2`, the two complex literals, and the stamping of the one-cell
part `"1"`. -/
theorem C5_witness :
    (processPart 1 stInit false (Part.scroll ['2']) =
      Except.ok ({ stInit with scroll_x_modifier := 2, scroll_y_modifier := 0 }, false)) ∧
    (processPart 1 stInit false (Part.scroll ['1', '+', '2', 'i']) =
      Except.ok ({ stInit with scroll_x_modifier := 1, scroll_y_modifier := 2 }, false)) ∧
    (processPart 1 stInit false (Part.scroll ['1', ',', '2', 'i']) =
      Except.ok ({ stInit with scroll_x_modifier := 0, scroll_y_modifier := 12 }, false)) ∧
    ((∀ n ∈ stCellsW.notes.play_notes,
        n ∈ stInit.notes.play_notes ∨
          (n.scroll_x = stInit.scroll_x_modifier ∧
            n.scroll_y = stInit.scroll_y_modifier)) ∧
      (∀ n ∈ stCellsW.notes.bars,
        n ∈ stInit.notes.bars ∨
          (n.scroll_x = stInit.scroll_x_modifier ∧
            n.scroll_y = stInit.scroll_y_modifier))) :=
  ⟨(@C5_amended_theorem 1 stInit false rfl).1 ['2'] 2 rfl (by decide),
    (@C5_amended_theorem 1 stInit false rfl).2.1,
    (@C5_amended_theorem 1 stInit false rfl).2.2.1,
    (@C5_amended_theorem 1 stInit false rfl).2.2.2 [Cell.digit 1] stCellsW true
      (by simp +decide [stCellsW, partResult, stInit, processPart, runCells,
        processCell, initState, appendBarLine, mkBarLine, mkCellNote, emitNote,
        get_ms_per_measure, barLength, partBarLen])⟩

/-! ## Claim C6 — `'8'` with no open roll or balloon -/

/-- C6 counterexample: the claim says an `'8'` cell encountered while no
drumroll/balloon head is open aborts the load.  The chart `"18"` opens no
head at all, yet it parses successfully, emitting a DON followed by a `TAIL`:
the source only raises when `prev_note is None` (tja2.py lines 254–256),
i.e. when no note of any kind has been emitted yet. -/
theorem C6_counterexample :
    (notes_to_position [[Part.cells [Cell.digit 1, Cell.digit 8]]] 0 120 []).map
      (fun nl => nl.play_notes.map Note.type) = Except.ok [1, 8] := by decide

/-- C6 (amended): an `'8'` cell is fatal exactly when it is reached before
any note cell has been emitted in the whole chart (`prev_note` is `None`);
after any emitted note — whether or not a roll/balloon is open — it emits a
`TAIL` note without error. -/
theorem C6_amended_theorem {inc : ℚ} {st : ParserState} :
    (st.prev_note = none →
      processCell inc st (Cell.digit 8) =
        Except.error "No previous note found") ∧
    (∀ pn, st.prev_note = some pn →
      processCell inc st (Cell.digit 8) =
        Except.ok (emitNote st (mkCellNote st 8) inc)) := by
  constructor
  · intro h
    simp [processCell, h]
  · intro pn h
    simp [processCell, h]

/-- C6 witness: the amended statement evaluated at the chart-initial state
(no previous note) and at a state with a previous note on record. -/
theorem C6_witness :
    (stInit.prev_note = none ∧
      processCell 0 stInit (Cell.digit 8) =
        Except.error "No previous note found") ∧
    (stPrevW.prev_note = some tailW ∧
      processCell 0 stPrevW (Cell.digit 8) =
        Except.ok (emitNote stPrevW (mkCellNote stPrevW 8) 0)) :=
  ⟨⟨rfl, C6_amended_theorem.1 rfl⟩, ⟨rfl, C6_amended_theorem.2 tailW rfl⟩⟩

/-! ## Claim C7 — the two-cell chart `"12"` at 120 BPM -/

/-- C7: parsing the single bar `"12"` with initial BPM 120, the default 4/4
time signature and zero start offset yields exactly the two playable notes
at `hit_ms = 0` and `hit_ms = 1000`; indeed
`ms_per_measure = 240000 * (4/4) / 120 = 2000` and `bar_length = 2`, so each
cell advances the cursor by 1000 ms. -/
theorem C7_theorem :
    (notes_to_position [[Part.cells [Cell.digit 1, Cell.digit 2]]] 0 120 []).map
        (fun nl => nl.play_notes.map (fun n => n.hit_ms)) = Except.ok [0, 1000] ∧
    get_ms_per_measure 120 (4 / 4) = 2000 ∧
    barLength [Part.cells [Cell.digit 1, Cell.digit 2]] = 2 := by
  refine ⟨?_, by norm_num [get_ms_per_measure], by decide⟩
  norm_num +decide [notes_to_position, runChart, processBar, runParts, processPart,
    runCells, processCell, initState, appendBarLine, mkBarLine, mkCellNote, emitNote,
    get_ms_per_measure, barLength, partBarLen]

/-! ## Claim C8 — the scroll family is constantly `NMSCROLL` -/

/-- C8: `scroll_type` is initialised to `NMSCROLL` and never reassigned, so
for every chart (the quantification over all charts covers every prefix of a
run, hence every intermediate state) the final state still has
`scroll_type = NMSCROLL`; consequently the `#BPMCHANGE` multiplier branch
condition (`= BMSCROLL ∨ = HBSCROLL`) is false — every timeline event the
run produced is an absolute-BPM event with no relative multiplier — and the
`#SCROLL` guard (`≠ BMSCROLL`) always passes, so no `#SCROLL` is ignored. -/
theorem C8_theorem {chart : List (List Part)} {start bpm0 : ℚ}
    {balloon0 : List ℕ} {st' : ParserState}
    (h : runChart chart (initState start bpm0 balloon0) = Except.ok st') :
    st'.scroll_type = ScrollType.NMSCROLL ∧
    ¬(st'.scroll_type = ScrollType.BMSCROLL ∨
        st'.scroll_type = ScrollType.HBSCROLL) ∧
    st'.scroll_type ≠ ScrollType.BMSCROLL ∧
    AbsoluteTimeline st' := by
  have hs : (initState start bpm0 balloon0).scroll_type = ScrollType.NMSCROLL := rfl
  have ht : AbsoluteTimeline (initState start bpm0 balloon0) := by
    intro ev hev
    simp only [initState, List.mem_singleton] at hev
    subst hev
    rfl
  obtain ⟨h1, h2⟩ := runChart_fixed h hs ht
  refine ⟨h1, ?_, ?_, h2⟩
  · rw [h1]
    decide
  · rw [h1]
    decide

/-- C8 witness: the theorem evaluated on the one-bar chart `"1"`. -/
theorem C8_witness :
    stOneNoteW.scroll_type = ScrollType.NMSCROLL ∧
    ¬(stOneNoteW.scroll_type = ScrollType.BMSCROLL ∨
        stOneNoteW.scroll_type = ScrollType.HBSCROLL) ∧
    stOneNoteW.scroll_type ≠ ScrollType.BMSCROLL ∧
    AbsoluteTimeline stOneNoteW :=
  @C8_theorem [[Part.cells [Cell.digit 1]]] 0 120 [] stOneNoteW
    (by simp +decide [stOneNoteW, chartResult, runChart, processBar, runParts,
      processPart, runCells, processCell, stInit, initState, appendBarLine, mkBarLine,
      mkCellNote, emitNote, get_ms_per_measure, barLength, partBarLen])

/-! ## Claim C9 — note equality is `hit_ms` only -/

/-- C9: Python `==` on notes compares `hit_ms` and nothing else — it is
insensitive to `type`, `index` and the subclass tag (`Note`, `Drumroll` and
`Balloon` all define the same `__eq__`) — so `list.remove`/membership on note
lists matches the first note with an equal timestamp, not a specific
object. -/
theorem C9_theorem :
    (∀ a b : Note, (noteEq a b = true ↔ a.hit_ms = b.hit_ms)) ∧
    (∀ (a b : Note) (t i : ℕ) (c : NoteClass),
      noteEq { a with type := t, index := i, cls := c } b = noteEq a b) ∧
    (∀ (x y : Note) (l : List Note), x.hit_ms = y.hit_ms →
      removeNote (x :: l) y = l) := by
  refine ⟨?_, ?_, ?_⟩
  · intro a b
    exact beq_iff_eq
  · intro a b t i c
    rfl
  · intro x y l h
    simp [removeNote, noteEq, h]

/-- C9 witness: the statement evaluated on a drumroll head, a kusudama and a
tail that share or differ in timestamps. -/
theorem C9_witness :
    (noteEq rollHeadW kusuW = true ↔ rollHeadW.hit_ms = kusuW.hit_ms) ∧
    noteEq { rollHeadW with type := 9, index := 7, cls := NoteClass.plain } kusuW =
      noteEq rollHeadW kusuW ∧
    removeNote (rollHeadW :: [tailW]) kusuW = [tailW] :=
  ⟨C9_theorem.1 rollHeadW kusuW,
    C9_theorem.2.1 rollHeadW kusuW 9 7 NoteClass.plain,
    C9_theorem.2.2 rollHeadW kusuW [tailW] rfl⟩

/-! ## Claim C10 — `bar_length` is positive where the division happens -/

/-- C10: in a bar where no cells part (a part dispatched to the note-cell
branch, i.e. starting with a digit) contains a `'#'` character, every such
part's length is counted in `bar_length`; hence if the bar contains a
non-empty cells part — the only situation in which
`ms_per_measure / bar_length` is evaluated — the divisor is strictly
positive and the division cannot divide by zero. -/
theorem C10_theorem {bar : List Part} {items : List Cell}
    (hmem : Part.cells items ∈ bar) (hne : items ≠ [])
    (hnohash : ∀ its, Part.cells its ∈ bar → its.contains Cell.hash = false) :
    0 < barLength bar := by
  have h1 : partBarLen (Part.cells items) = items.length := by
    simp only [partBarLen]
    rw [hnohash items hmem]
    rfl
  have h2 : partBarLen (Part.cells items) ∈ bar.map partBarLen :=
    List.mem_map_of_mem _ hmem
  have h3 : partBarLen (Part.cells items) ≤ barLength bar :=
    List.single_le_sum (fun x _ => Nat.zero_le x) _ h2
  have h4 : 0 < items.length := List.length_pos.mpr hne
  omega

/-- C10 witness: the theorem evaluated on the one-part bar `"12"`. -/
theorem C10_witness :
    0 < barLength [Part.cells [Cell.digit 1, Cell.digit 2]] :=
  C10_theorem (List.mem_cons_self _ _) (by decide)
    (fun its h => by
      rw [List.mem_singleton] at h
      injection h with h'
      rw [h']
      rfl)

end PyTaiko
